import Mathlib

/-!
Verification of the department-scoped boundary cache of
`src/api/services/boundary_service.py`.

The Python module keeps two module-level globals, a dict `_boundary_cache`
from INSEE commune code to GeoJSON `Feature`, and a set `_dept_loaded` of
department codes already bulk-fetched, and exposes three operations:
`_load_department_sync` (bulk fetch one department via `carti_download` and
cache every returned commune), `get_commune_boundary` (lookup with lazy
department-level population), and `get_cache_stats` (sizes of the two
structures).

The embedding below models the two globals as an explicit state `St` that is
threaded through the operations, and the external `carti_download` call as a
function-valued parameter `Loader`: for a department code it either raises
(`LoaderResult.fail`) or returns a data frame, modelled as the list of its
rows.  A row either yields its extracted fields (`Row.good`, carrying the
values of `row['INSEE_COM']`, `row.get('NOM', '')`, `row.get('POPULATION', 0)`
and `row['geometry'].__geo_interface__`) or raises while being processed
(`Row.bad`, e.g. a missing column or a broken geometry); both kinds of
exception are caught by the `try/except` that wraps the whole body of
`_load_department_sync`.

Python operations on strings are modelled on the underlying character list:
`s.startswith(p)` is `p.data.isPrefixOf s.data` and the slice `s[:n]` is
`⟨s.data.take n⟩` (both clamp on short strings exactly as Python slicing
does).  The dict is an association list whose insert replaces an existing
binding in place and otherwise appends, matching assignment into a `dict`;
the set is a duplicate-free list.
-/

namespace BoundaryService

/-- GeoJSON `Feature` dict built in `_load_department_sync`: the fixed
`"type": "Feature"` tag is omitted, the `properties` entries `INSEE_COM`,
`NOM_COM`, `POPULATION` and the opaque `geometry` payload are the fields. -/
structure Feature where
  insee_com : String
  nom_com : String
  population : Int
  geometry : String
  deriving DecidableEq

/-- one row of the GeoDataFrame returned by `carti_download`, with the
fields the loop body of `_load_department_sync` extracts (defaults for
`NOM` and `POPULATION` already applied, as `row.get` does). -/
structure CommuneRow where
  insee_com : String
  nom : String
  population : Int
  geometry : String
  deriving DecidableEq

/-- a data-frame row as seen by the caching loop: either its fields are
extracted successfully, or touching the row raises (malformed record). -/
inductive Row where
  | good (r : CommuneRow)
  | bad
  deriving DecidableEq

/-- the `feature` dict the loop body builds from one row. -/
def mkFeature (r : CommuneRow) : Feature :=
  ⟨r.insee_com, r.nom, r.population, r.geometry⟩

/-- outcome of one `carti_download` call: raise, or return a data frame. -/
inductive LoaderResult where
  | fail
  | ok (rows : List Row)
  deriving DecidableEq

/-- the external bulk-fetch collaborator (`carti_download` with the fixed
arguments of `_load_department_sync`), as a function of the department
code. -/
def Loader : Type := String → LoaderResult

/-- Python `s.startswith(p)`, on the character list of the string. -/
def pyStartsWith (s p : String) : Bool :=
  p.data.isPrefixOf s.data

/-- Python slice `s[:n]`: the first `n` characters, clamped. -/
def pySlice (s : String) (n : Nat) : String :=
  ⟨s.data.take n⟩

/-- the two module-level globals `_boundary_cache` and `_dept_loaded`. -/
structure St where
  boundary_cache : List (String × Feature)
  dept_loaded : List String
  deriving DecidableEq

/-- the state at module import: empty dict, empty set. -/
def initSt : St := ⟨[], []⟩

/-- the key set of the cache dict. -/
def cacheKeys (c : List (String × Feature)) : List String :=
  c.map Prod.fst

/-- dict lookup `_boundary_cache.get(insee)` / `_boundary_cache[insee]`. -/
def lookupCache (k : String) : List (String × Feature) → Option Feature
  | [] => none
  | p :: rest => if p.1 = k then some p.2 else lookupCache k rest

/-- dict assignment `_boundary_cache[k] = v`: replace the binding in place
when the key is present (a dict keeps the key's position), otherwise append
a new binding at the end (a dict appends new keys in insertion order). -/
def insertCache (k : String) (v : Feature) :
    List (String × Feature) → List (String × Feature)
  | [] => [(k, v)]
  | p :: rest => if p.1 = k then (k, v) :: rest else p :: insertCache k v rest

/-- set insertion `_dept_loaded.add(d)`. -/
def insertDept (d : String) (l : List String) : List String :=
  if d ∈ l then l else l ++ [d]

/-- the `for _, row in gdf.iterrows()` caching loop: insert each good row's
feature under the row's own INSEE code; a bad row raises, which aborts the
loop (the flag records whether the loop ran to completion). -/
def processRows : List Row → List (String × Feature) →
    List (String × Feature) × Bool
  | [], c => (c, true)
  | Row.good r :: rest, c => processRows rest (insertCache r.insee_com (mkFeature r) c)
  | Row.bad :: _, c => (c, false)

/-- `_load_department_sync(dept_code)`: call the loader; on a raised fetch
leave everything unchanged; otherwise run the caching loop, and only if it
completes add `dept_code` to `_dept_loaded`.  Every exception is swallowed
by the surrounding `try/except`. -/
def load_department_sync (loader : Loader) (dept_code : String) (st : St) : St :=
  match loader dept_code with
  | LoaderResult.fail => st
  | LoaderResult.ok rows =>
    let pr := processRows rows st.boundary_cache
    if pr.2 then ⟨pr.1, insertDept dept_code st.dept_loaded⟩
    else ⟨pr.1, st.dept_loaded⟩

/-- the inline department-code derivation of `get_commune_boundary`
(lines 92-100): overseas `97x` prefix keeps three characters, the Corsica
branch and the general branch keep two. -/
def deriveRegionCode (insee : String) : String :=
  if pyStartsWith insee "97" then pySlice insee 3
  else if pyStartsWith insee "2A" || pyStartsWith insee "2B" then pySlice insee 2
  else pySlice insee 2

/-- result of one `get_commune_boundary` call: the returned optional
feature, the state afterwards, and (ghost instrumentation, not returned by
the Python function) the department codes for which the loader was invoked
during the call. -/
structure GetResult where
  result : Option Feature
  state : St
  fetched : List String
  deriving DecidableEq

/-- `get_commune_boundary(insee)`: serve from the cache when present;
otherwise derive the department code, load the department if it is not in
`_dept_loaded`, and return `_boundary_cache.get(insee)`. -/
def get_commune_boundary (loader : Loader) (insee : String) (st : St) : GetResult :=
  match lookupCache insee st.boundary_cache with
  | some f => ⟨some f, st, []⟩
  | none =>
    let dept_code := deriveRegionCode insee
    if dept_code ∈ st.dept_loaded then
      ⟨lookupCache insee st.boundary_cache, st, []⟩
    else
      let st' := load_department_sync loader dept_code st
      ⟨lookupCache insee st'.boundary_cache, st', [dept_code]⟩

/-- `get_cache_stats()`: `(len(_boundary_cache), len(_dept_loaded))`,
i.e. `cached_communes` and `cached_departments`.  It reads the state and
returns a fresh dict; it takes no mutable step, which the embedding
reflects by not returning a state at all. -/
def get_cache_stats (st : St) : Nat × Nat :=
  (st.boundary_cache.length, st.dept_loaded.length)

/-- a sequential series of `get_commune_boundary` calls, accumulating the
ghost fetch log. -/
def runGets (loader : Loader) : List String → St → St × List String
  | [], st => (st, [])
  | i :: is, st =>
    let g := get_commune_boundary loader i st
    let r := runGets loader is g.state
    (r.1, g.fetched ++ r.2)

/-- the INSEE codes of the successfully extracted rows of a data frame. -/
def rowKeys (rows : List Row) : List String :=
  rows.filterMap fun r =>
    match r with
    | Row.good c => some c.insee_com
    | Row.bad => none

/-- a data frame none of whose rows raises while being processed. -/
def RowsOk (rows : List Row) : Prop :=
  ∀ r ∈ rows, r ≠ Row.bad

/-- the loader succeeds for department `d` and every row processes
cleanly. -/
def loaderOk (loader : Loader) (d : String) : Prop :=
  ∃ rows, loader d = LoaderResult.ok rows ∧ RowsOk rows

/-- Modelled from the spec: the simplified two-rule derivation of §4.1
("region code is the first 3 characters if the id starts with 97,
otherwise the first 2"), to be compared with the three-branch source
derivation. -/
def deriveRegionCodeSpec (insee : String) : String :=
  if pyStartsWith insee "97" then pySlice insee 3 else pySlice insee 2

/-- spec §3 invariant: every department marked loaded has every commune the
loader returns for it present in the cache, keyed by the row's own INSEE
code. -/
def RegionLoadedInv (loader : Loader) (st : St) : Prop :=
  ∀ d, d ∈ st.dept_loaded → ∀ rows, loader d = LoaderResult.ok rows →
    ∀ c : CommuneRow, Row.good c ∈ rows →
      (lookupCache c.insee_com st.boundary_cache).isSome = true

/-- the loader never returns two rows (in any departments) that carry the
same INSEE code but build different features. -/
def LoaderConsistent (loader : Loader) : Prop :=
  ∀ d d' rows rows' c c', loader d = LoaderResult.ok rows →
    loader d' = LoaderResult.ok rows' →
    Row.good c ∈ rows → Row.good c' ∈ rows' →
    c.insee_com = c'.insee_com → mkFeature c = mkFeature c'

/-- every cached feature agrees with every loader row carrying its key. -/
def CacheConsistentList (loader : Loader) (c : List (String × Feature)) : Prop :=
  ∀ k f, lookupCache k c = some f →
    ∀ d rows cr, loader d = LoaderResult.ok rows → Row.good cr ∈ rows →
      cr.insee_com = k → mkFeature cr = f

/-- `CacheConsistentList` on the cache component of a state. -/
def CacheConsistent (loader : Loader) (st : St) : Prop :=
  CacheConsistentList loader st.boundary_cache

theorem lookupCache_isSome_iff (k : String) (c : List (String × Feature)) :
    (lookupCache k c).isSome = true ↔ k ∈ cacheKeys c := by
  induction c with
  | nil => simp [lookupCache, cacheKeys]
  | cons p rest ih =>
    by_cases h : p.1 = k
    · simp [lookupCache, cacheKeys, h]
    · simp only [lookupCache, cacheKeys, List.map_cons, List.mem_cons, if_neg h]
      rw [ih]
      unfold cacheKeys
      constructor
      · exact Or.inr
      · rintro (h' | h')
        · exact absurd h'.symm h
        · exact h'

theorem lookupCache_eq_none_iff (k : String) (c : List (String × Feature)) :
    lookupCache k c = none ↔ k ∉ cacheKeys c := by
  rw [← lookupCache_isSome_iff]
  cases lookupCache k c <;> simp

theorem lookupCache_insertCache (k k' : String) (v : Feature)
    (c : List (String × Feature)) :
    lookupCache k (insertCache k' v c) =
      if k' = k then some v else lookupCache k c := by
  induction c with
  | nil =>
    simp [insertCache, lookupCache]
  | cons p rest ih =>
    by_cases hpk' : p.1 = k'
    · by_cases hkk : k' = k
      · simp [insertCache, hpk', lookupCache, hkk]
      · have hpk : ¬ p.1 = k := fun h => hkk (hpk'.symm.trans h)
        simp [insertCache, hpk', lookupCache, hkk, hpk]
    · by_cases hpk : p.1 = k
      · have hkk : ¬ k' = k := fun h => hpk' (hpk.trans h.symm)
        have hkk2 : ¬ k = k' := fun h => hkk h.symm
        simp [insertCache, hpk', lookupCache, hpk, hkk, hkk2]
      · simp [insertCache, hpk', lookupCache, hpk, ih]

theorem isSome_lookupCache_insertCache (k k' : String) (v : Feature)
    (c : List (String × Feature)) (h : (lookupCache k c).isSome = true) :
    (lookupCache k (insertCache k' v c)).isSome = true := by
  rw [lookupCache_insertCache]
  split
  · rfl
  · exact h

theorem length_insertCache (k : String) (v : Feature) (c : List (String × Feature)) :
    (insertCache k v c).length =
      if k ∈ cacheKeys c then c.length else c.length + 1 := by
  induction c with
  | nil => simp [insertCache, cacheKeys]
  | cons p rest ih =>
    by_cases hpk : p.1 = k
    · simp [insertCache, hpk, cacheKeys]
    · have hne : ¬ k = p.1 := fun h => hpk h.symm
      simp only [insertCache, if_neg hpk, List.length_cons, ih, cacheKeys,
        List.map_cons, List.mem_cons]
      by_cases hmem : k ∈ List.map Prod.fst rest
      · simp [cacheKeys, hmem, hne]
      · simp [cacheKeys, hmem, hne]

theorem cacheKeys_insertCache_not_mem (k : String) (v : Feature)
    (c : List (String × Feature)) (h : k ∉ cacheKeys c) :
    cacheKeys (insertCache k v c) = cacheKeys c ++ [k] := by
  induction c with
  | nil => simp [insertCache, cacheKeys]
  | cons p rest ih =>
    simp only [cacheKeys, List.map_cons, List.mem_cons] at h
    push_neg at h
    have hpk : ¬ p.1 = k := fun h' => h.1 h'.symm
    have hrest : k ∉ cacheKeys rest := by
      simpa [cacheKeys] using h.2
    have ih' : List.map Prod.fst (insertCache k v rest) = List.map Prod.fst rest ++ [k] := by
      simpa [cacheKeys] using ih hrest
    simp [insertCache, hpk, cacheKeys, ih']

theorem rowKeys_cons_good (cr : CommuneRow) (rest : List Row) :
    rowKeys (Row.good cr :: rest) = cr.insee_com :: rowKeys rest := by
  simp [rowKeys, List.filterMap_cons]

theorem rowKeys_cons_bad (rest : List Row) :
    rowKeys (Row.bad :: rest) = rowKeys rest := by
  simp [rowKeys, List.filterMap_cons]

theorem processRows_cache_mono (rows : List Row) (c : List (String × Feature))
    (k : String) (h : (lookupCache k c).isSome = true) :
    (lookupCache k (processRows rows c).1).isSome = true := by
  induction rows generalizing c with
  | nil => simpa [processRows]
  | cons r rest ih =>
    cases r with
    | good cr =>
      exact ih _ (isSome_lookupCache_insertCache _ _ _ _ h)
    | bad => simpa [processRows]

theorem processRows_complete_mem (rows : List Row) (c : List (String × Feature))
    (cr : CommuneRow) (hc : (processRows rows c).2 = true)
    (hm : Row.good cr ∈ rows) :
    (lookupCache cr.insee_com (processRows rows c).1).isSome = true := by
  induction rows generalizing c with
  | nil => cases hm
  | cons r rest ih =>
    cases r with
    | good cr0 =>
      rcases List.mem_cons.mp hm with h | h
      · cases h
        refine processRows_cache_mono rest _ _ ?_
        rw [lookupCache_insertCache, if_pos rfl]
        rfl
      · exact ih _ (by simpa [processRows] using hc) h
    | bad =>
      simp [processRows] at hc

theorem processRows_ok_complete (rows : List Row) (c : List (String × Feature))
    (h : RowsOk rows) : (processRows rows c).2 = true := by
  induction rows generalizing c with
  | nil => rfl
  | cons r rest ih =>
    cases r with
    | good cr =>
      exact ih _ fun r hr => h r (List.mem_cons_of_mem _ hr)
    | bad =>
      exact absurd rfl (h Row.bad (List.mem_cons_self _ _))

theorem processRows_keys_sub (rows : List Row) (c : List (String × Feature))
    (k : String) (h : (lookupCache k (processRows rows c).1).isSome = true) :
    (lookupCache k c).isSome = true ∨ k ∈ rowKeys rows := by
  induction rows generalizing c with
  | nil => exact Or.inl (by simpa [processRows] using h)
  | cons r rest ih =>
    cases r with
    | good cr =>
      rcases ih _ (by simpa [processRows] using h) with h' | h'
      · rw [lookupCache_insertCache] at h'
        by_cases hk : cr.insee_com = k
        · exact Or.inr (by rw [rowKeys_cons_good, ← hk]; exact List.mem_cons_self _ _)
        · rw [if_neg hk] at h'
          exact Or.inl h'
      · exact Or.inr (by rw [rowKeys_cons_good]; exact List.mem_cons_of_mem _ h')
    | bad =>
      exact Or.inl (by simpa [processRows] using h)

theorem insertDept_mem_iff (d : String) (l : List String) (x : String) :
    x ∈ insertDept d l ↔ x ∈ l ∨ x = d := by
  by_cases h : d ∈ l
  · simp only [insertDept, if_pos h]
    constructor
    · exact Or.inl
    · rintro (h' | h')
      · exact h'
      · exact h' ▸ h
  · simp [insertDept, h]

theorem load_fail_eq (loader : Loader) (d : String) (st : St)
    (h : loader d = LoaderResult.fail) :
    load_department_sync loader d st = st := by
  unfold load_department_sync
  rw [h]

theorem load_complete_eq (loader : Loader) (d : String) (st : St) (rows : List Row)
    (h : loader d = LoaderResult.ok rows)
    (hc : (processRows rows st.boundary_cache).2 = true) :
    load_department_sync loader d st =
      ⟨(processRows rows st.boundary_cache).1, insertDept d st.dept_loaded⟩ := by
  unfold load_department_sync
  rw [h]
  simp [hc]

theorem load_incomplete_eq (loader : Loader) (d : String) (st : St) (rows : List Row)
    (h : loader d = LoaderResult.ok rows)
    (hc : (processRows rows st.boundary_cache).2 = false) :
    load_department_sync loader d st =
      ⟨(processRows rows st.boundary_cache).1, st.dept_loaded⟩ := by
  unfold load_department_sync
  rw [h]
  simp [hc]

theorem load_cache_cases (loader : Loader) (d : String) (st : St) :
    (load_department_sync loader d st).boundary_cache = st.boundary_cache ∨
      ∃ rows, loader d = LoaderResult.ok rows ∧
        (load_department_sync loader d st).boundary_cache =
          (processRows rows st.boundary_cache).1 := by
  cases hl : loader d with
  | fail => exact Or.inl (by rw [load_fail_eq loader d st hl])
  | ok rows =>
    refine Or.inr ⟨rows, rfl, ?_⟩
    cases hc : (processRows rows st.boundary_cache).2
    · rw [load_incomplete_eq loader d st rows hl hc]
    · rw [load_complete_eq loader d st rows hl hc]

theorem load_loaded_mono (loader : Loader) (d : String) (st : St) (d' : String)
    (h : d' ∈ st.dept_loaded) :
    d' ∈ (load_department_sync loader d st).dept_loaded := by
  cases hl : loader d with
  | fail => rw [load_fail_eq loader d st hl]; exact h
  | ok rows =>
    cases hc : (processRows rows st.boundary_cache).2
    · rw [load_incomplete_eq loader d st rows hl hc]; exact h
    · rw [load_complete_eq loader d st rows hl hc]
      exact (insertDept_mem_iff d st.dept_loaded d').mpr (Or.inl h)

theorem load_cache_mono (loader : Loader) (d : String) (st : St) (k : String)
    (h : (lookupCache k st.boundary_cache).isSome = true) :
    (lookupCache k (load_department_sync loader d st).boundary_cache).isSome = true := by
  rcases load_cache_cases loader d st with hc | ⟨rows, _, hc⟩
  · rw [hc]; exact h
  · rw [hc]; exact processRows_cache_mono rows _ k h

theorem get_eq_cached (loader : Loader) (insee : String) (st : St) (f : Feature)
    (h : lookupCache insee st.boundary_cache = some f) :
    get_commune_boundary loader insee st = ⟨some f, st, []⟩ := by
  unfold get_commune_boundary
  rw [h]

theorem get_eq_loaded_mem (loader : Loader) (insee : String) (st : St)
    (h : lookupCache insee st.boundary_cache = none)
    (h2 : deriveRegionCode insee ∈ st.dept_loaded) :
    get_commune_boundary loader insee st = ⟨none, st, []⟩ := by
  unfold get_commune_boundary
  rw [h]
  simp [h2, h]

theorem get_eq_load (loader : Loader) (insee : String) (st : St)
    (h : lookupCache insee st.boundary_cache = none)
    (h2 : deriveRegionCode insee ∉ st.dept_loaded) :
    get_commune_boundary loader insee st =
      ⟨lookupCache insee
          (load_department_sync loader (deriveRegionCode insee) st).boundary_cache,
        load_department_sync loader (deriveRegionCode insee) st,
        [deriveRegionCode insee]⟩ := by
  unfold get_commune_boundary
  rw [h]
  simp [h2]

theorem get_state_cases (loader : Loader) (insee : String) (st : St) :
    ((get_commune_boundary loader insee st).state = st ∧
      (get_commune_boundary loader insee st).fetched = []) ∨
    ((get_commune_boundary loader insee st).state =
        load_department_sync loader (deriveRegionCode insee) st ∧
      (get_commune_boundary loader insee st).fetched = [deriveRegionCode insee] ∧
      deriveRegionCode insee ∉ st.dept_loaded ∧
      lookupCache insee st.boundary_cache = none) := by
  cases hl : lookupCache insee st.boundary_cache with
  | some f => exact Or.inl (by rw [get_eq_cached loader insee st f hl]; exact ⟨rfl, rfl⟩)
  | none =>
    by_cases hmem : deriveRegionCode insee ∈ st.dept_loaded
    · exact Or.inl (by rw [get_eq_loaded_mem loader insee st hl hmem]; exact ⟨rfl, rfl⟩)
    · exact Or.inr (by rw [get_eq_load loader insee st hl hmem]; exact ⟨rfl, rfl, hmem, rfl⟩)

theorem get_loaded_mono (loader : Loader) (insee : String) (st : St) (d' : String)
    (h : d' ∈ st.dept_loaded) :
    d' ∈ (get_commune_boundary loader insee st).state.dept_loaded := by
  rcases get_state_cases loader insee st with ⟨hs, _⟩ | ⟨hs, _, _, _⟩
  · rw [hs]; exact h
  · rw [hs]; exact load_loaded_mono loader _ st d' h

theorem get_cache_mono (loader : Loader) (insee : String) (st : St) (k : String)
    (h : (lookupCache k st.boundary_cache).isSome = true) :
    (lookupCache k (get_commune_boundary loader insee st).state.boundary_cache).isSome
      = true := by
  rcases get_state_cases loader insee st with ⟨hs, _⟩ | ⟨hs, _, _, _⟩
  · rw [hs]; exact h
  · rw [hs]; exact load_cache_mono loader _ st k h

theorem get_fetched_nil_of_cached (loader : Loader) (insee : String) (st : St)
    (h : (lookupCache insee st.boundary_cache).isSome = true) :
    (get_commune_boundary loader insee st).fetched = [] := by
  cases hl : lookupCache insee st.boundary_cache with
  | some f => rw [get_eq_cached loader insee st f hl]
  | none => rw [hl] at h; cases h

theorem get_fetched_nil_of_loaded (loader : Loader) (insee : String) (st : St)
    (h : deriveRegionCode insee ∈ st.dept_loaded) :
    (get_commune_boundary loader insee st).fetched = [] := by
  cases hl : lookupCache insee st.boundary_cache with
  | some f => rw [get_eq_cached loader insee st f hl]
  | none => rw [get_eq_loaded_mem loader insee st hl h]

theorem get_not_fetched_of_loaded (loader : Loader) (insee : String) (st : St)
    (R : String) (h : R ∈ st.dept_loaded) :
    R ∉ (get_commune_boundary loader insee st).fetched := by
  rcases get_state_cases loader insee st with ⟨_, hf⟩ | ⟨_, hf, hnm, _⟩
  · rw [hf]; exact List.not_mem_nil R
  · rw [hf]
    intro hc
    rcases List.mem_singleton.mp hc with rfl
    exact hnm h

theorem runGets_loaded_mono (loader : Loader) (ids : List String) (st : St)
    (d' : String) (h : d' ∈ st.dept_loaded) :
    d' ∈ (runGets loader ids st).1.dept_loaded := by
  induction ids generalizing st with
  | nil => simpa [runGets]
  | cons i is ih =>
    simp only [runGets]
    exact ih _ (get_loaded_mono loader i st d' h)

theorem runGets_cache_mono (loader : Loader) (ids : List String) (st : St)
    (k : String) (h : (lookupCache k st.boundary_cache).isSome = true) :
    (lookupCache k (runGets loader ids st).1.boundary_cache).isSome = true := by
  induction ids generalizing st with
  | nil => simpa [runGets]
  | cons i is ih =>
    simp only [runGets]
    exact ih _ (get_cache_mono loader i st k h)

theorem runGets_no_fetch_of_loaded (loader : Loader) (ids : List String) (st : St)
    (R : String) (h : R ∈ st.dept_loaded) :
    R ∉ (runGets loader ids st).2 := by
  induction ids generalizing st with
  | nil => simp [runGets]
  | cons i is ih =>
    simp only [runGets]
    intro hmem
    rcases List.mem_append.mp hmem with hf | hr
    · exact get_not_fetched_of_loaded loader i st R h hf
    · exact ih _ (get_loaded_mono loader i st R h) hr

theorem deriveRegionCode_eq_two_rule (s : String) :
    deriveRegionCode s = deriveRegionCodeSpec s := by
  unfold deriveRegionCode deriveRegionCodeSpec
  cases h97 : pyStartsWith s "97" <;>
    cases hc : pyStartsWith s "2A" || pyStartsWith s "2B" <;>
      simp [h97, hc]

/-- C2: for every valid 5-character entity id, the derivation returns the
first 3 characters when the id starts with `"97"` and the first 2
characters otherwise. -/
theorem deriveRegionCode_five_char_rule (insee : String) (h : insee.length = 5) :
    deriveRegionCode insee =
      if pyStartsWith insee "97" then pySlice insee 3 else pySlice insee 2 :=
  deriveRegionCode_eq_two_rule insee

theorem deriveRegionCode_five_char_rule_witness :
    ("97400".length = 5 ∧
      deriveRegionCode "97400" =
        if pyStartsWith "97400" "97" then pySlice "97400" 3 else pySlice "97400" 2) :=
  ⟨by decide, deriveRegionCode_five_char_rule "97400" (by decide)⟩

/-- C8: the three-branch derivation of the source (overseas `97`, Corsica
`2A`/`2B`, general) is extensionally equal to the spec's two-rule
derivation, the Corsica branch returning the same 2-character slice as the
general branch on every input. -/
theorem deriveRegionCode_eq_spec_derivation (s : String) :
    deriveRegionCode s = deriveRegionCodeSpec s :=
  deriveRegionCode_eq_two_rule s

theorem pyStartsWith_false_of_short (s p : String)
    (h : s.data.length < p.data.length) : pyStartsWith s p = false := by
  unfold pyStartsWith
  cases hb : p.data.isPrefixOf s.data
  · rfl
  · rw [List.isPrefixOf_iff_prefix] at hb
    exact absurd hb.length_le (by omega)

theorem deriveRegionCode_short (s : String) (h : s.length < 2) :
    deriveRegionCode s = s := by
  have hd : s.data.length < 2 := h
  have h97 : pyStartsWith s "97" = false :=
    pyStartsWith_false_of_short s "97" (by exact hd)
  have h2A : pyStartsWith s "2A" = false :=
    pyStartsWith_false_of_short s "2A" (by exact hd)
  have h2B : pyStartsWith s "2B" = false :=
    pyStartsWith_false_of_short s "2B" (by exact hd)
  unfold deriveRegionCode
  rw [h97, h2A, h2B]
  show pySlice s 2 = s
  unfold pySlice
  rw [List.take_of_length_le (Nat.le_of_lt hd)]

theorem lookupCache_none_of_keylen (k : String) (c : List (String × Feature))
    (hk : k.length < 2) (hc : ∀ p ∈ c, p.1.length = 5) :
    lookupCache k c = none := by
  rw [lookupCache_eq_none_iff]
  intro hmem
  unfold cacheKeys at hmem
  rcases List.mem_map.mp hmem with ⟨p, hp, hpk⟩
  have h5 := hc p hp
  rw [hpk] at h5
  omega

/-- C1: when the query misses the cache, the department is not yet loaded,
and the loader raises for the derived department code, `get_commune_boundary`
returns `none` (instead of raising) and the department code is not in
`_dept_loaded` afterwards; the third conjunct records that the loader was
in fact invoked for the region in that call. -/
theorem failed_region_load_returns_absent (loader : Loader) (st : St) (insee : String)
    (hmiss : lookupCache insee st.boundary_cache = none)
    (hnl : deriveRegionCode insee ∉ st.dept_loaded)
    (hfail : loader (deriveRegionCode insee) = LoaderResult.fail) :
    (get_commune_boundary loader insee st).result = none ∧
    deriveRegionCode insee ∉ (get_commune_boundary loader insee st).state.dept_loaded ∧
    (get_commune_boundary loader insee st).fetched = [deriveRegionCode insee] := by
  rw [get_eq_load loader insee st hmiss hnl,
    load_fail_eq loader (deriveRegionCode insee) st hfail]
  exact ⟨hmiss, hnl, rfl⟩

theorem failed_region_load_returns_absent_witness :
    (get_commune_boundary (fun _ => LoaderResult.fail) "92049" initSt).result = none ∧
    deriveRegionCode "92049" ∉
      (get_commune_boundary (fun _ => LoaderResult.fail) "92049" initSt).state.dept_loaded ∧
    (get_commune_boundary (fun _ => LoaderResult.fail) "92049" initSt).fetched =
      [deriveRegionCode "92049"] :=
  failed_region_load_returns_absent (fun _ => LoaderResult.fail) initSt "92049"
    rfl (by decide) rfl

/-- C3: a lookup that hits the cache performs no fetch, a lookup whose
derived department is already loaded performs no fetch, a department that
is loaded at the start of any sequential series of lookups is never fetched
during the series, and when the loader succeeds cleanly for the derived
department the second of two lookups for the same entity id performs no
fetch. -/
theorem at_most_one_fetch_per_region (loader : Loader) (st : St) (insee R : String)
    (ids : List String) :
    ((lookupCache insee st.boundary_cache).isSome = true →
      (get_commune_boundary loader insee st).fetched = []) ∧
    (deriveRegionCode insee ∈ st.dept_loaded →
      (get_commune_boundary loader insee st).fetched = []) ∧
    (R ∈ st.dept_loaded → R ∉ (runGets loader ids st).2) ∧
    (loaderOk loader (deriveRegionCode insee) →
      (get_commune_boundary loader insee
        (get_commune_boundary loader insee st).state).fetched = []) := by
  refine ⟨fun h => get_fetched_nil_of_cached loader insee st h,
    fun h => get_fetched_nil_of_loaded loader insee st h,
    fun h => runGets_no_fetch_of_loaded loader ids st R h,
    fun hok => ?_⟩
  obtain ⟨rows, hrows, hrok⟩ := hok
  rcases get_state_cases loader insee st with ⟨hs, hf⟩ | ⟨hs, _, _, _⟩
  · rw [hs]
    exact hf
  · rw [hs]
    have hcomp := processRows_ok_complete rows st.boundary_cache hrok
    rw [load_complete_eq loader (deriveRegionCode insee) st rows hrows hcomp]
    apply get_fetched_nil_of_loaded
    exact (insertDept_mem_iff _ _ _).mpr (Or.inr rfl)

theorem at_most_one_fetch_per_region_witness :
    (get_commune_boundary (fun _ => LoaderResult.ok [])
        "92049" ⟨[("92049", ⟨"92049", "Montrouge", 48000, "g"⟩)], ["92"]⟩).fetched = [] ∧
    (get_commune_boundary (fun _ => LoaderResult.ok [])
        "92049" ⟨[("92049", ⟨"92049", "Montrouge", 48000, "g"⟩)], ["92"]⟩).fetched = [] ∧
    "92" ∉ (runGets (fun _ => LoaderResult.ok []) ["75056"]
        ⟨[("92049", ⟨"92049", "Montrouge", 48000, "g"⟩)], ["92"]⟩).2 ∧
    (get_commune_boundary (fun _ => LoaderResult.ok []) "92049"
      (get_commune_boundary (fun _ => LoaderResult.ok [])
        "92049" ⟨[("92049", ⟨"92049", "Montrouge", 48000, "g"⟩)], ["92"]⟩).state).fetched
      = [] := by
  refine ⟨(at_most_one_fetch_per_region (fun _ => LoaderResult.ok [])
      ⟨[("92049", ⟨"92049", "Montrouge", 48000, "g"⟩)], ["92"]⟩ "92049" "92" ["75056"]).1
      (by decide),
    (at_most_one_fetch_per_region (fun _ => LoaderResult.ok [])
      ⟨[("92049", ⟨"92049", "Montrouge", 48000, "g"⟩)], ["92"]⟩ "92049" "92" ["75056"]).2.1
      (by decide),
    (at_most_one_fetch_per_region (fun _ => LoaderResult.ok [])
      ⟨[("92049", ⟨"92049", "Montrouge", 48000, "g"⟩)], ["92"]⟩ "92049" "92" ["75056"]).2.2.1
      (by decide),
    (at_most_one_fetch_per_region (fun _ => LoaderResult.ok [])
      ⟨[("92049", ⟨"92049", "Montrouge", 48000, "g"⟩)], ["92"]⟩ "92049" "92" ["75056"]).2.2.2
      ⟨[], rfl, fun r hr => absurd hr (List.not_mem_nil r)⟩⟩

/-- C4: `get_commune_boundary` is a total function into an optional feature
(it returns a record or absence, never raising); on an identifier shorter
than the 2-character minimum both prefix tests are false and the slice
clamps, so the derivation returns the identifier itself without raising;
and when every cached key and every loader-returned key is a proper
5-character INSEE code, a too-short identifier simply misses. -/
theorem get_total_and_short_id (loader : Loader) (st : St) (insee : String) :
    ((get_commune_boundary loader insee st).result = none ∨
      ∃ f, (get_commune_boundary loader insee st).result = some f) ∧
    (insee.length < 2 → deriveRegionCode insee = insee) ∧
    (insee.length < 2 →
      (∀ p ∈ st.boundary_cache, p.1.length = 5) →
      (∀ d rows, loader d = LoaderResult.ok rows → ∀ k ∈ rowKeys rows, k.length = 5) →
      (get_commune_boundary loader insee st).result = none) := by
  refine ⟨?_, fun h => deriveRegionCode_short insee h, fun hlen hcache hloader => ?_⟩
  · cases hres : (get_commune_boundary loader insee st).result with
    | none => exact Or.inl rfl
    | some f => exact Or.inr ⟨f, rfl⟩
  · have hl : lookupCache insee st.boundary_cache = none :=
      lookupCache_none_of_keylen insee st.boundary_cache hlen hcache
    by_cases hmem : deriveRegionCode insee ∈ st.dept_loaded
    · rw [get_eq_loaded_mem loader insee st hl hmem]
    · rw [get_eq_load loader insee st hl hmem]
      show lookupCache insee
        (load_department_sync loader (deriveRegionCode insee) st).boundary_cache = none
      rcases load_cache_cases loader (deriveRegionCode insee) st with hc | ⟨rows, hrows, hc⟩
      · rw [hc]
        exact hl
      · rw [hc]
        cases hres : lookupCache insee (processRows rows st.boundary_cache).1 with
        | none => rfl
        | some f =>
          exfalso
          have hs : (lookupCache insee (processRows rows st.boundary_cache).1).isSome
              = true := by
            rw [hres]
            rfl
          rcases processRows_keys_sub rows st.boundary_cache insee hs with h1 | h1
          · rw [hl] at h1
            cases h1
          · have h5 := hloader (deriveRegionCode insee) rows hrows insee h1
            omega

theorem get_total_and_short_id_witness :
    ((get_commune_boundary
        (fun _ => LoaderResult.ok [Row.good ⟨"92049", "Montrouge", 48000, "g"⟩])
        "9" initSt).result = none ∨
      ∃ f, (get_commune_boundary
        (fun _ => LoaderResult.ok [Row.good ⟨"92049", "Montrouge", 48000, "g"⟩])
        "9" initSt).result = some f) ∧
    deriveRegionCode "9" = "9" ∧
    (get_commune_boundary
        (fun _ => LoaderResult.ok [Row.good ⟨"92049", "Montrouge", 48000, "g"⟩])
        "9" initSt).result = none := by
  refine ⟨(get_total_and_short_id
      (fun _ => LoaderResult.ok [Row.good ⟨"92049", "Montrouge", 48000, "g"⟩])
      initSt "9").1,
    (get_total_and_short_id
      (fun _ => LoaderResult.ok [Row.good ⟨"92049", "Montrouge", 48000, "g"⟩])
      initSt "9").2.1 (by decide),
    (get_total_and_short_id
      (fun _ => LoaderResult.ok [Row.good ⟨"92049", "Montrouge", 48000, "g"⟩])
      initSt "9").2.2 (by decide) (by decide) ?_⟩
  intro d rows h
  cases h
  decide

/-- C7: after a loader failure for department `R` (the loaded set, and in
the pure-failure case the whole state, is unchanged), a second lookup for
any entity deriving to `R` invokes the loader again; and a department in
`_dept_loaded` stays in it across any sequential series of lookups and is
never fetched again (no LOADED to UNSEEN transition). -/
theorem failed_region_retried_loaded_permanent (loader : Loader) (st : St)
    (insee insee2 R R' : String) (ids : List String) :
    (loader R = LoaderResult.fail → deriveRegionCode insee = R →
      deriveRegionCode insee2 = R →
      lookupCache insee st.boundary_cache = none →
      lookupCache insee2 st.boundary_cache = none →
      R ∉ st.dept_loaded →
      (get_commune_boundary loader insee st).fetched = [R] ∧
      (get_commune_boundary loader insee2
        (get_commune_boundary loader insee st).state).fetched = [R]) ∧
    (R' ∈ st.dept_loaded →
      R' ∈ (runGets loader ids st).1.dept_loaded ∧
      R' ∉ (runGets loader ids st).2) := by
  constructor
  · intro hfail hd1 hd2 hm1 hm2 hnl
    have hst : get_commune_boundary loader insee st =
        ⟨lookupCache insee st.boundary_cache, st, [deriveRegionCode insee]⟩ := by
      rw [get_eq_load loader insee st hm1 (by rw [hd1]; exact hnl)]
      rw [hd1, load_fail_eq loader R st hfail]
    rw [hst]
    refine ⟨by rw [hd1], ?_⟩
    show (get_commune_boundary loader insee2 st).fetched = [R]
    rw [get_eq_load loader insee2 st hm2 (by rw [hd2]; exact hnl), hd2]
  · intro h
    exact ⟨runGets_loaded_mono loader ids st R' h,
      runGets_no_fetch_of_loaded loader ids st R' h⟩

theorem failed_region_retried_loaded_permanent_witness :
    ((get_commune_boundary (fun _ => LoaderResult.fail) "91001"
        ⟨[], ["92"]⟩).fetched = ["91"] ∧
      (get_commune_boundary (fun _ => LoaderResult.fail) "91002"
        (get_commune_boundary (fun _ => LoaderResult.fail) "91001"
          ⟨[], ["92"]⟩).state).fetched = ["91"]) ∧
    ("92" ∈ (runGets (fun _ => LoaderResult.fail) ["92049"] ⟨[], ["92"]⟩).1.dept_loaded ∧
      "92" ∉ (runGets (fun _ => LoaderResult.fail) ["92049"] ⟨[], ["92"]⟩).2) :=
  ⟨(failed_region_retried_loaded_permanent (fun _ => LoaderResult.fail)
      ⟨[], ["92"]⟩ "91001" "91002" "91" "92" ["92049"]).1
      rfl (by decide) (by decide) rfl rfl (by decide),
    (failed_region_retried_loaded_permanent (fun _ => LoaderResult.fail)
      ⟨[], ["92"]⟩ "91001" "91002" "91" "92" ["92049"]).2 (by decide)⟩

theorem load_preserves_inv (loader : Loader) (d : String) (st : St)
    (h : RegionLoadedInv loader st) :
    RegionLoadedInv loader (load_department_sync loader d st) := by
  cases hl : loader d with
  | fail =>
    rw [load_fail_eq loader d st hl]
    exact h
  | ok rows =>
    cases hc : (processRows rows st.boundary_cache).2
    · rw [load_incomplete_eq loader d st rows hl hc]
      intro d' hd' rows' hrows' c hcmem
      exact processRows_cache_mono rows _ _ (h d' hd' rows' hrows' c hcmem)
    · rw [load_complete_eq loader d st rows hl hc]
      intro d' hd' rows' hrows' c hcmem
      rcases (insertDept_mem_iff d st.dept_loaded d').mp hd' with hold | rfl
      · exact processRows_cache_mono rows _ _ (h d' hold rows' hrows' c hcmem)
      · have hr : rows = rows' := by
          rw [hl] at hrows'
          injection hrows'
        subst hr
        exact processRows_complete_mem rows _ c hc hcmem

theorem get_preserves_inv (loader : Loader) (insee : String) (st : St)
    (h : RegionLoadedInv loader st) :
    RegionLoadedInv loader (get_commune_boundary loader insee st).state := by
  rcases get_state_cases loader insee st with ⟨hs, _⟩ | ⟨hs, _, _, _⟩
  · rw [hs]
    exact h
  · rw [hs]
    exact load_preserves_inv loader _ st h

theorem runGets_preserves_inv (loader : Loader) (ids : List String) (st : St)
    (h : RegionLoadedInv loader st) :
    RegionLoadedInv loader (runGets loader ids st).1 := by
  induction ids generalizing st with
  | nil => simpa [runGets]
  | cons i is ih =>
    simp only [runGets]
    exact ih _ (get_preserves_inv loader i st h)

/-- C5: in every state satisfying the §3 invariant (every loaded department
has every commune the loader returns for it present in the cache, keyed by
the row's own INSEE code — e.g. the empty start state), a single
`get_commune_boundary` call and any sequential series of such calls preserve
the invariant; `get_cache_stats` takes no state transition at all in the
embedding, so it preserves every state property trivially. -/
theorem region_loaded_invariant_preserved (loader : Loader) (st : St)
    (insee : String) (ids : List String) (h : RegionLoadedInv loader st) :
    RegionLoadedInv loader (get_commune_boundary loader insee st).state ∧
    RegionLoadedInv loader (runGets loader ids st).1 :=
  ⟨get_preserves_inv loader insee st h, runGets_preserves_inv loader ids st h⟩

theorem region_loaded_invariant_preserved_witness :
    RegionLoadedInv
        (fun _ => LoaderResult.ok [Row.good ⟨"92049", "Montrouge", 48000, "g"⟩])
        initSt ∧
      (RegionLoadedInv
          (fun _ => LoaderResult.ok [Row.good ⟨"92049", "Montrouge", 48000, "g"⟩])
          (get_commune_boundary
            (fun _ => LoaderResult.ok [Row.good ⟨"92049", "Montrouge", 48000, "g"⟩])
            "92049" initSt).state ∧
        RegionLoadedInv
          (fun _ => LoaderResult.ok [Row.good ⟨"92049", "Montrouge", 48000, "g"⟩])
          (runGets
            (fun _ => LoaderResult.ok [Row.good ⟨"92049", "Montrouge", 48000, "g"⟩])
            ["92049", "97400"] initSt).1) := by
  have hinv : RegionLoadedInv
      (fun _ => LoaderResult.ok [Row.good ⟨"92049", "Montrouge", 48000, "g"⟩])
      initSt := fun d hd => absurd hd (List.not_mem_nil d)
  exact ⟨hinv, region_loaded_invariant_preserved
    (fun _ => LoaderResult.ok [Row.good ⟨"92049", "Montrouge", 48000, "g"⟩])
    initSt "92049" ["92049", "97400"] hinv⟩

theorem processRows_partial (gs : List CommuneRow) (rest : List Row)
    (c : List (String × Feature)) :
    (processRows (gs.map Row.good ++ Row.bad :: rest) c).2 = false ∧
    ∀ g ∈ gs, (lookupCache g.insee_com
      (processRows (gs.map Row.good ++ Row.bad :: rest) c).1).isSome = true := by
  induction gs generalizing c with
  | nil => simp [processRows]
  | cons g0 gs ih =>
    simp only [List.map_cons, List.cons_append, processRows]
    obtain ⟨ihf, ihm⟩ := ih (insertCache g0.insee_com (mkFeature g0) c)
    refine ⟨ihf, ?_⟩
    intro g hg
    rcases List.mem_cons.mp hg with rfl | hg'
    · apply processRows_cache_mono
      rw [lookupCache_insertCache, if_pos rfl]
      rfl
    · exact ihm g hg'

/-- C10: when the loader returns a data frame whose rows are some cleanly
processed records followed by a row that raises, the records processed
before the exception stay in the cache while the department is not added to
`_dept_loaded`, so the cache can hold entities of a department absent from
the loaded set. -/
theorem partial_cache_population_on_row_failure (loader : Loader) (st : St)
    (insee R : String) (gs : List CommuneRow) (rest : List Row)
    (hrows : loader R = LoaderResult.ok (gs.map Row.good ++ Row.bad :: rest))
    (hd : deriveRegionCode insee = R)
    (hnl : R ∉ st.dept_loaded)
    (hmiss : lookupCache insee st.boundary_cache = none) :
    (∀ g ∈ gs, (lookupCache g.insee_com
        (get_commune_boundary loader insee st).state.boundary_cache).isSome = true) ∧
    R ∉ (get_commune_boundary loader insee st).state.dept_loaded := by
  have hget := get_eq_load loader insee st hmiss (by rw [hd]; exact hnl)
  rw [hget, hd]
  obtain ⟨hf, hm⟩ := processRows_partial gs rest st.boundary_cache
  rw [load_incomplete_eq loader R st _ hrows hf]
  exact ⟨hm, hnl⟩

theorem partial_cache_population_on_row_failure_witness :
    (∀ g ∈ [(⟨"92049", "Montrouge", 48000, "g"⟩ : CommuneRow)],
      (lookupCache g.insee_com
        (get_commune_boundary
          (fun _ => LoaderResult.ok
            [Row.good ⟨"92049", "Montrouge", 48000, "g"⟩, Row.bad])
          "92049" initSt).state.boundary_cache).isSome = true) ∧
    "92" ∉ (get_commune_boundary
        (fun _ => LoaderResult.ok
          [Row.good ⟨"92049", "Montrouge", 48000, "g"⟩, Row.bad])
        "92049" initSt).state.dept_loaded :=
  partial_cache_population_on_row_failure
    (fun _ => LoaderResult.ok [Row.good ⟨"92049", "Montrouge", 48000, "g"⟩, Row.bad])
    initSt "92049" "92" [⟨"92049", "Montrouge", 48000, "g"⟩] []
    rfl (by decide) (by decide) rfl

theorem processRows_fresh (rows : List Row) (c : List (String × Feature))
    (hok : RowsOk rows) (hnd : (rowKeys rows).Nodup)
    (hfresh : ∀ k ∈ rowKeys rows, k ∉ cacheKeys c) :
    (processRows rows c).1.length = c.length + rows.length ∧
    cacheKeys (processRows rows c).1 = cacheKeys c ++ rowKeys rows := by
  induction rows generalizing c with
  | nil => simp [processRows, rowKeys]
  | cons r rest ih =>
    cases r with
    | bad => exact absurd rfl (hok Row.bad (List.mem_cons_self _ _))
    | good cr =>
      rw [rowKeys_cons_good] at hnd hfresh
      have hcrfresh : cr.insee_com ∉ cacheKeys c :=
        hfresh cr.insee_com (List.mem_cons_self _ _)
      have hkeys := cacheKeys_insertCache_not_mem cr.insee_com (mkFeature cr) c hcrfresh
      have hlen := length_insertCache cr.insee_com (mkFeature cr) c
      rw [if_neg hcrfresh] at hlen
      have hok' : RowsOk rest := fun r hr => hok r (List.mem_cons_of_mem _ hr)
      have hnd' : (rowKeys rest).Nodup := hnd.of_cons
      have hfresh' : ∀ k ∈ rowKeys rest,
          k ∉ cacheKeys (insertCache cr.insee_com (mkFeature cr) c) := by
        intro k hk
        rw [hkeys]
        intro hmem
        rcases List.mem_append.mp hmem with hmem | hmem
        · exact hfresh k (List.mem_cons_of_mem _ hk) hmem
        · rcases List.mem_singleton.mp hmem with rfl
          exact (List.nodup_cons.mp hnd).1 hk
      obtain ⟨ihlen, ihkeys⟩ := ih _ hok' hnd' hfresh'
      constructor
      · show (processRows rest (insertCache cr.insee_com (mkFeature cr) c)).1.length
          = c.length + (rest.length + 1)
        rw [ihlen, hlen]
        omega
      · show cacheKeys (processRows rest (insertCache cr.insee_com (mkFeature cr) c)).1
          = cacheKeys c ++ (cr.insee_com :: rowKeys rest)
        rw [ihkeys, hkeys]
        simp

/-- C6: `get_cache_stats` returns the sizes of the cache dict and the
loaded-department set (and performs no state transition, which the
embedding reflects in its type); in the concrete scenario where two
distinct departments are loaded successfully, with cleanly processed,
duplicate-free and cross-region-disjoint rows, the stats after the two
lookups are the summed row counts and a loaded count of 2. -/
theorem stats_after_two_region_loads (loader : Loader) (st : St)
    (id1 id2 R1 R2 : String) (rows1 rows2 : List Row)
    (hld1 : loader R1 = LoaderResult.ok rows1)
    (hld2 : loader R2 = LoaderResult.ok rows2)
    (hok1 : RowsOk rows1) (hok2 : RowsOk rows2)
    (hnd1 : (rowKeys rows1).Nodup) (hnd2 : (rowKeys rows2).Nodup)
    (hdisj : ∀ k ∈ rowKeys rows2, k ∉ rowKeys rows1)
    (hd1 : deriveRegionCode id1 = R1) (hd2 : deriveRegionCode id2 = R2)
    (hne : R2 ≠ R1) (hid2 : id2 ∉ rowKeys rows1) :
    get_cache_stats st = (st.boundary_cache.length, st.dept_loaded.length) ∧
    get_cache_stats
        (get_commune_boundary loader id2
          (get_commune_boundary loader id1 initSt).state).state
      = (rows1.length + rows2.length, 2) := by
  refine ⟨rfl, ?_⟩
  have hm1 : lookupCache id1 initSt.boundary_cache = none := rfl
  have hnl1 : deriveRegionCode id1 ∉ initSt.dept_loaded := by
    rw [hd1]
    exact List.not_mem_nil R1
  have hcomp1 : (processRows rows1 initSt.boundary_cache).2 = true :=
    processRows_ok_complete rows1 _ hok1
  have hst1 : (get_commune_boundary loader id1 initSt).state =
      ⟨(processRows rows1 initSt.boundary_cache).1,
        insertDept R1 initSt.dept_loaded⟩ := by
    rw [get_eq_load loader id1 initSt hm1 hnl1, hd1,
      load_complete_eq loader R1 initSt rows1 hld1 hcomp1]
  obtain ⟨hlen1, hkeys1⟩ := processRows_fresh rows1 initSt.boundary_cache hok1 hnd1
    (fun k _ => List.not_mem_nil k)
  have hm2 : lookupCache id2 (processRows rows1 initSt.boundary_cache).1 = none := by
    rw [lookupCache_eq_none_iff, hkeys1]
    simpa [cacheKeys, initSt] using hid2
  have hnl2 : deriveRegionCode id2 ∉
      (⟨(processRows rows1 initSt.boundary_cache).1,
        insertDept R1 initSt.dept_loaded⟩ : St).dept_loaded := by
    rw [hd2]
    intro hmem
    rcases (insertDept_mem_iff R1 initSt.dept_loaded R2).mp hmem with h' | h'
    · exact List.not_mem_nil R2 h'
    · exact hne h'
  have hcomp2 :
      (processRows rows2 (processRows rows1 initSt.boundary_cache).1).2 = true :=
    processRows_ok_complete rows2 _ hok2
  have hst2 : (get_commune_boundary loader id2
      (⟨(processRows rows1 initSt.boundary_cache).1,
        insertDept R1 initSt.dept_loaded⟩ : St)).state =
      ⟨(processRows rows2 (processRows rows1 initSt.boundary_cache).1).1,
        insertDept R2 (insertDept R1 initSt.dept_loaded)⟩ := by
    rw [get_eq_load loader id2 _ hm2 hnl2, hd2,
      load_complete_eq loader R2 _ rows2 hld2 hcomp2]
  rw [hst1, hst2]
  obtain ⟨hlen2, _⟩ := processRows_fresh rows2 (processRows rows1 initSt.boundary_cache).1
    hok2 hnd2 (by intro k hk; rw [hkeys1]; simpa [cacheKeys, initSt] using hdisj k hk)
  show ((processRows rows2 (processRows rows1 initSt.boundary_cache).1).1.length,
      (insertDept R2 (insertDept R1 initSt.dept_loaded)).length)
    = (rows1.length + rows2.length, 2)
  have hL : (processRows rows2 (processRows rows1 initSt.boundary_cache).1).1.length
      = rows1.length + rows2.length := by
    rw [hlen2, hlen1]
    simp [initSt]
  have hD : (insertDept R2 (insertDept R1 initSt.dept_loaded)).length = 2 := by
    simp [insertDept, initSt, hne]
  rw [hL, hD]

theorem stats_after_two_region_loads_witness :
    get_cache_stats initSt = (initSt.boundary_cache.length, initSt.dept_loaded.length) ∧
    get_cache_stats
        (get_commune_boundary
          (fun d => if d = "92" then
              LoaderResult.ok [Row.good ⟨"92049", "Montrouge", 48000, "ga"⟩]
            else if d = "91" then
              LoaderResult.ok [Row.good ⟨"91001", "A", 1, "gb"⟩,
                Row.good ⟨"91002", "B", 2, "gc"⟩]
            else LoaderResult.fail)
          "91001"
          (get_commune_boundary
            (fun d => if d = "92" then
                LoaderResult.ok [Row.good ⟨"92049", "Montrouge", 48000, "ga"⟩]
              else if d = "91" then
                LoaderResult.ok [Row.good ⟨"91001", "A", 1, "gb"⟩,
                  Row.good ⟨"91002", "B", 2, "gc"⟩]
              else LoaderResult.fail)
            "92049" initSt).state).state
      = ([Row.good (⟨"92049", "Montrouge", 48000, "ga"⟩ : CommuneRow)].length +
          [Row.good (⟨"91001", "A", 1, "gb"⟩ : CommuneRow),
            Row.good (⟨"91002", "B", 2, "gc"⟩ : CommuneRow)].length, 2) :=
  stats_after_two_region_loads
    (fun d => if d = "92" then
        LoaderResult.ok [Row.good ⟨"92049", "Montrouge", 48000, "ga"⟩]
      else if d = "91" then
        LoaderResult.ok [Row.good ⟨"91001", "A", 1, "gb"⟩,
          Row.good ⟨"91002", "B", 2, "gc"⟩]
      else LoaderResult.fail)
    initSt "92049" "91001" "92" "91"
    [Row.good ⟨"92049", "Montrouge", 48000, "ga"⟩]
    [Row.good ⟨"91001", "A", 1, "gb"⟩, Row.good ⟨"91002", "B", 2, "gc"⟩]
    (by decide) (by decide) (by unfold RowsOk; decide) (by unfold RowsOk; decide)
    (by decide) (by decide) (by decide) (by decide) (by decide) (by decide)
    (by decide)

theorem CCache_insert (loader : Loader) (c : List (String × Feature))
    (d : String) (rows : List Row) (cr : CommuneRow)
    (hl : LoaderConsistent loader) (hc : CacheConsistentList loader c)
    (hrows : loader d = LoaderResult.ok rows) (hmem : Row.good cr ∈ rows) :
    CacheConsistentList loader (insertCache cr.insee_com (mkFeature cr) c) ∧
    ∀ k f, lookupCache k c = some f →
      lookupCache k (insertCache cr.insee_com (mkFeature cr) c) = some f := by
  constructor
  · intro k f hkf d' rows' cr' hrows' hmem' hk
    rw [lookupCache_insertCache] at hkf
    by_cases hkk : cr.insee_com = k
    · rw [if_pos hkk] at hkf
      injection hkf with hf
      rw [← hf]
      exact hl d' d rows' rows cr' cr hrows' hrows hmem' hmem (hk.trans hkk.symm)
    · rw [if_neg hkk] at hkf
      exact hc k f hkf d' rows' cr' hrows' hmem' hk
  · intro k f hkf
    rw [lookupCache_insertCache]
    by_cases hkk : cr.insee_com = k
    · rw [if_pos hkk, hc k f hkf d rows cr hrows hmem hkk]
    · rw [if_neg hkk]
      exact hkf

theorem processRows_CCache (loader : Loader) (c : List (String × Feature))
    (rows0 rows : List Row) (d : String)
    (hl : LoaderConsistent loader) (hc : CacheConsistentList loader c)
    (hrows0 : loader d = LoaderResult.ok rows0)
    (hsub : ∀ r ∈ rows, r ∈ rows0) :
    CacheConsistentList loader (processRows rows c).1 ∧
    ∀ k f, lookupCache k c = some f →
      lookupCache k (processRows rows c).1 = some f := by
  induction rows generalizing c with
  | nil => exact ⟨hc, fun k f h => h⟩
  | cons r rest ih =>
    cases r with
    | bad => exact ⟨hc, fun k f h => h⟩
    | good cr =>
      have hmem0 : Row.good cr ∈ rows0 := hsub _ (List.mem_cons_self _ _)
      obtain ⟨hc', hpres⟩ := CCache_insert loader c d rows0 cr hl hc hrows0 hmem0
      obtain ⟨ihc, ihpres⟩ := ih (insertCache cr.insee_com (mkFeature cr) c) hc'
        (fun r hr => hsub r (List.mem_cons_of_mem _ hr))
      exact ⟨ihc, fun k f hkf => ihpres k f (hpres k f hkf)⟩

theorem load_CCache (loader : Loader) (d : String) (st : St)
    (hl : LoaderConsistent loader) (hc : CacheConsistent loader st) :
    CacheConsistent loader (load_department_sync loader d st) ∧
    ∀ k f, lookupCache k st.boundary_cache = some f →
      lookupCache k (load_department_sync loader d st).boundary_cache = some f := by
  cases hld : loader d with
  | fail =>
    rw [load_fail_eq loader d st hld]
    exact ⟨hc, fun k f h => h⟩
  | ok rows =>
    obtain ⟨h1, h2⟩ := processRows_CCache loader st.boundary_cache rows rows d hl hc
      hld (fun r hr => hr)
    cases hcp : (processRows rows st.boundary_cache).2
    · rw [load_incomplete_eq loader d st rows hld hcp]
      exact ⟨h1, h2⟩
    · rw [load_complete_eq loader d st rows hld hcp]
      exact ⟨h1, h2⟩

theorem get_CCache (loader : Loader) (insee : String) (st : St)
    (hl : LoaderConsistent loader) (hc : CacheConsistent loader st) :
    CacheConsistent loader (get_commune_boundary loader insee st).state ∧
    ∀ k f, lookupCache k st.boundary_cache = some f →
      lookupCache k (get_commune_boundary loader insee st).state.boundary_cache
        = some f := by
  rcases get_state_cases loader insee st with ⟨hs, _⟩ | ⟨hs, _, _, _⟩
  · rw [hs]
    exact ⟨hc, fun k f h => h⟩
  · rw [hs]
    exact load_CCache loader _ st hl hc

theorem runGets_CCache (loader : Loader) (ids : List String) (st : St)
    (hl : LoaderConsistent loader) (hc : CacheConsistent loader st) :
    CacheConsistent loader (runGets loader ids st).1 ∧
    ∀ k f, lookupCache k st.boundary_cache = some f →
      lookupCache k (runGets loader ids st).1.boundary_cache = some f := by
  induction ids generalizing st with
  | nil => exact ⟨hc, fun k f h => h⟩
  | cons i is ih =>
    obtain ⟨hc', hpres⟩ := get_CCache loader i st hl hc
    obtain ⟨ihc, ihpres⟩ := ih (get_commune_boundary loader i st).state hc'
    exact ⟨ihc, fun k f hkf => ihpres k f (hpres k f hkf)⟩

/-- refutation of C9 as stated: quantified over every loader behavior, the
cache is not append-only in the record-content sense.  With a loader whose
department-91 data frame reuses the id `"92049"` with different content,
the first lookup caches the Montrouge record and a later lookup in
department 91 silently overwrites it (last-write-wins dict assignment). -/
theorem cache_record_overwritten_counterexample :
    lookupCache "92049"
        (get_commune_boundary
          (fun d => if d = "92" then
              LoaderResult.ok [Row.good ⟨"92049", "Montrouge", 48000, "g1"⟩]
            else if d = "91" then
              LoaderResult.ok [Row.good ⟨"92049", "Other", 0, "g2"⟩]
            else LoaderResult.fail)
          "92049" initSt).state.boundary_cache
      = some ⟨"92049", "Montrouge", 48000, "g1"⟩ ∧
    lookupCache "92049"
        (get_commune_boundary
          (fun d => if d = "92" then
              LoaderResult.ok [Row.good ⟨"92049", "Montrouge", 48000, "g1"⟩]
            else if d = "91" then
              LoaderResult.ok [Row.good ⟨"92049", "Other", 0, "g2"⟩]
            else LoaderResult.fail)
          "91001"
          (get_commune_boundary
            (fun d => if d = "92" then
                LoaderResult.ok [Row.good ⟨"92049", "Montrouge", 48000, "g1"⟩]
              else if d = "91" then
                LoaderResult.ok [Row.good ⟨"92049", "Other", 0, "g2"⟩]
              else LoaderResult.fail)
            "92049" initSt).state).state.boundary_cache
      = some ⟨"92049", "Other", 0, "g2"⟩ ∧
    (⟨"92049", "Montrouge", 48000, "g1"⟩ : Feature)
      ≠ (⟨"92049", "Other", 0, "g2"⟩ : Feature) := by
  decide

/-- C9 (amended): across any sequential series of lookups, a key once
present in the cache is never removed, for every loader behavior; and
provided the loader never returns two rows with the same entity id but
different feature content, and the cache's current contents agree with the
loader's rows, the record stored under a key is also never changed. -/
theorem cache_append_only_amended (loader : Loader) (st : St) (ids : List String)
    (k : String) (f : Feature) :
    ((lookupCache k st.boundary_cache).isSome = true →
      (lookupCache k (runGets loader ids st).1.boundary_cache).isSome = true) ∧
    (LoaderConsistent loader → CacheConsistent loader st →
      lookupCache k st.boundary_cache = some f →
      lookupCache k (runGets loader ids st).1.boundary_cache = some f) :=
  ⟨fun h => runGets_cache_mono loader ids st k h,
    fun hl hc hkf => (runGets_CCache loader ids st hl hc).2 k f hkf⟩

theorem cache_append_only_amended_witness :
    ((lookupCache "92049"
        (runGets (fun _ => LoaderResult.fail) ["91001"]
          ⟨[("92049", ⟨"92049", "Montrouge", 48000, "g"⟩)], []⟩).1.boundary_cache).isSome
      = true) ∧
    lookupCache "92049"
        (runGets (fun _ => LoaderResult.fail) ["91001"]
          ⟨[("92049", ⟨"92049", "Montrouge", 48000, "g"⟩)], []⟩).1.boundary_cache
      = some ⟨"92049", "Montrouge", 48000, "g"⟩ :=
  ⟨(cache_append_only_amended (fun _ => LoaderResult.fail)
      ⟨[("92049", ⟨"92049", "Montrouge", 48000, "g"⟩)], []⟩ ["91001"]
      "92049" ⟨"92049", "Montrouge", 48000, "g"⟩).1 (by decide),
    (cache_append_only_amended (fun _ => LoaderResult.fail)
      ⟨[("92049", ⟨"92049", "Montrouge", 48000, "g"⟩)], []⟩ ["91001"]
      "92049" ⟨"92049", "Montrouge", 48000, "g"⟩).2
      (fun d d' rows rows' c c' h => LoaderResult.noConfusion h)
      (fun k f hkf d rows cr hrows => LoaderResult.noConfusion hrows)
      rfl⟩

end BoundaryService
